import Mathlib

/-
  Verification development for the rotation-sensor character driver
  (src/rotation-sensor.c).  The C code is shallowly embedded: machine
  integers (long int, loff_t) are modelled as unbounded Int, sizes as
  Nat, and the external collaborators (kmalloc, copy_from_user,
  copy_to_user, gpio_request, gpio_direction_input, request_irq,
  misc_register, gpio_get_value) as boolean or integer oracles supplied
  as parameters.  Each definition mirrors one function or statement
  sequence of the source; source line numbers are cited in the
  doc comments.
-/

namespace RotationSensor

/-- Return type of a Linux interrupt handler, restricted to the
constructors this driver can produce. -/
inductive Irqreturn where
  | IRQ_NONE : Irqreturn
  | IRQ_HANDLED : Irqreturn
deriving DecidableEq, Repr

/-- The loop at src/rotation-sensor.c:127-128:
while (sensor->value > count_max) sensor->value -= count_max.
The guard of the C loop is the strict comparison value > count_max.
The conjunct 0 < m records that the C loop only terminates for a
positive modulus; every claim assumes a positive modulus. -/
def normalize_down (m v : Int) : Int :=
  if _h : 0 < m ∧ m < v then normalize_down m (v - m) else v
termination_by (v - m).toNat
decreasing_by
  simp_wf
  omega

/-- The loop at src/rotation-sensor.c:129-130:
while (sensor->value < 0) sensor->value += count_max. -/
def normalize_up (m v : Int) : Int :=
  if _h : 0 < m ∧ v < 0 then normalize_up m (v + m) else v
termination_by (-v).toNat
decreasing_by
  simp_wf
  omega

/-- src/rotation-sensor.c:118-135, gpio_a_handler: parameters are the
modulus count_max, the sampled level of channel B (gpio_get_value at
line 123) and the current counter value; result is the new counter
value paired with the returned irqreturn_t (always IRQ_HANDLED,
line 134). -/
def gpio_a_handler (m : Int) (b : Bool) (v : Int) : Int × Irqreturn :=
  (normalize_up m (normalize_down m (if b then v + 1 else v - 1)),
   Irqreturn.IRQ_HANDLED)

/-- Folds a sequence of edge events (channel-B levels) through
gpio_a_handler, starting from counter value v. -/
def run_events (m : Int) (ls : List Bool) (v : Int) : Int :=
  ls.foldl (fun acc b => (gpio_a_handler m b acc).1) v

/-- The signed sum of a sequence of channel-B levels: +1 per high
level, -1 per low level. -/
def signed_sum (ls : List Bool) : Int :=
  (ls.map (fun b => if b then (1 : Int) else -1)).sum

/-- Decimal digit character, as produced by the %ld conversion of
snprintf for a single digit value (0 ≤ n ≤ 9; values above nine
cannot arise from n % 10). -/
def digit_char : Nat → Char
  | 0 => '0' | 1 => '1' | 2 => '2' | 3 => '3' | 4 => '4'
  | 5 => '5' | 6 => '6' | 7 => '7' | 8 => '8' | _ => '9'

/-- Decimal rendering of a natural number, most significant digit
first, as produced by the %ld conversion of snprintf. -/
def nat_decimal (n : Nat) : List Char :=
  if _h : n < 10 then [digit_char n]
  else nat_decimal (n / 10) ++ [digit_char (n % 10)]
termination_by n
decreasing_by
  simp_wf
  omega

/-- Decimal rendering of a signed integer, as produced by the %ld
conversion of snprintf: a leading minus sign for negative values. -/
def int_decimal (i : Int) : List Char :=
  if i < 0 then '-' :: nat_decimal (-i).toNat else nat_decimal i.toNat

/-- Two's-complement wraparound of a 32-bit int: the value a C int
assignment stores for an out-of-range result (gcc semantics). -/
def wrap32 (x : Int) : Int :=
  (x + 2147483648) % 4294967296 - 2147483648

/-- Two's-complement wraparound of a 64-bit long: the value a 64-bit
long computation wraps to. -/
def wrap64 (x : Int) : Int :=
  (x + 9223372036854775808) % 18446744073709551616 - 9223372036854775808

/-- src/rotation-sensor.c:71: angle = (g_rotation_sensor.value * 3600) / count_max.
The multiplication is performed on 64-bit long and wraps for counter
values beyond 2^63/3600 in magnitude, which the write path can store;
C division on long truncates toward zero, which is Int.tdiv.  (The
counter value itself always fits a long in the C program; values
outside that range are unreachable there.) -/
def angle_of (m v : Int) : Int := Int.tdiv (wrap64 (v * 3600)) m

/-- src/rotation-sensor.c:73: snprintf(kbuffer, 64, "%ld.%ld\n", angle/10, angle%10).
C / and % on long are Int.tdiv and Int.tmod (truncation toward zero,
remainder with the sign of the dividend).  snprintf with size 64
writes at most 63 characters plus the terminator, so strlen(kbuffer)
is the length of the rendering capped at 63. -/
def kbuffer_of (m v : Int) : List Char :=
  (int_decimal (Int.tdiv (angle_of m v) 10)
    ++ '.' :: int_decimal (Int.tmod (angle_of m v) 10)
    ++ ['\n']).take 63

/-- Result of one read call: the returned ssize_t, the bytes delivered
to the caller, and the file offset after the call. -/
structure ReadResult where
  ret : Int
  bytes : List Char
  offset : Int
deriving DecidableEq, Repr

/-- src/rotation-sensor.c:64-89, rotation_sensor_read.  Parameters:
modulus, counter value sampled at line 71, the length argument, the
file offset (loff_t), and an oracle for the success of copy_to_user
(line 85).  lg is an int (line 66): lg := strlen(kbuffer) is exact,
but lg -= (*offset) at line 78 narrows the 64-bit difference to a
32-bit int, modelled by wrap32 — for offsets of 2^32 and beyond the
difference wraps back to a positive lg.  If lg ≤ 0 return 0 (lines
79-80); clamp lg to length (lines 82-83); deliver lg bytes from
kbuffer + offset and advance the offset (lines 85-88), or return
-EFAULT = -14 if the copy fails (line 86).  When the wrapped lg is
positive at an offset past the string, the C source copies from
beyond kbuffer (undefined content); the model then delivers the
empty in-bounds remainder, while the returned count and the advanced
offset, which refute the end-of-stream claim, are exact. -/
def rotation_sensor_read (m v : Int) (length : Nat) (offset : Int)
    (copy_ok : Bool) : ReadResult :=
  let kbuffer := kbuffer_of m v
  let lg : Int := wrap32 ((kbuffer.length : Int) - offset)
  if lg ≤ 0 then ⟨0, [], offset⟩
  else
    let lg2 : Nat := min lg.toNat length
    if copy_ok then ⟨(lg2 : Int), (kbuffer.drop offset.toNat).take lg2, offset + (lg2 : Int)⟩
    else ⟨-14, [], offset⟩

/-- C isspace over the characters sscanf skips before a conversion:
space, tab, newline, vertical tab, form feed, carriage return. -/
def is_space (c : Char) : Bool :=
  c.toNat == 32 || c.toNat == 9 || c.toNat == 10 ||
  c.toNat == 11 || c.toNat == 12 || c.toNat == 13

/-- C isdigit. -/
def is_digit (c : Char) : Bool :=
  48 ≤ c.toNat && c.toNat ≤ 57

/-- Numeric value of a decimal digit character. -/
def digit_val (c : Char) : Nat := c.toNat - 48

/-- Value of a list of decimal digit characters, most significant
first, as accumulated by the %ld conversion of sscanf. -/
def digits_val (l : List Char) : Nat :=
  l.foldl (fun a c => a * 10 + digit_val c) 0

/-- Optional sign consumed by the %ld conversion of sscanf: the Bool
is true when the sign is a minus. -/
def parse_sign (l : List Char) : Bool × List Char :=
  match l with
  | [] => (false, [])
  | c :: r =>
    if c = '-' then (true, r)
    else if c = '+' then (false, r)
    else (false, c :: r)

/-- src/rotation-sensor.c:105: sscanf(kbuffer, "%ld", &value).  The
%ld conversion skips leading white space, consumes an optional sign
and a maximal nonempty run of decimal digits; it matches (sscanf
returns 1) exactly when at least one digit is consumed.  The kernel
accumulates the digits on unsigned long long and the %ld conversion
stores the (possibly negated) result into a 64-bit long, so the
delivered value is the two's-complement wrap of the signed digit
value. -/
def sscanf_ld (buf : List Char) : Option Int :=
  let r1 := buf.dropWhile is_space
  let s := parse_sign r1
  let ds := s.2.takeWhile is_digit
  if ds = [] then none
  else if s.1 then some (wrap64 (-(digits_val ds : Int)))
  else some (wrap64 ((digits_val ds : Int)))

/-- src/rotation-sensor.c:92-115, rotation_sensor_write.  Parameters:
oracles for the success of kmalloc (line 98) and copy_from_user
(line 101), the input bytes, the uninitialized heap bytes that follow
the copied input inside the kmalloc allocation, and the current
counter value.  The source kmallocs exactly length bytes (line 98)
and copies exactly length bytes (line 101) but never writes a NUL
terminator, so the C string sscanf parses at line 105 is the input
followed by whatever heap bytes trail it up to the first zero byte:
the heap parameter models those trailing bytes.  (For length 0 the
source even hands sscanf the ZERO_SIZE_PTR returned by kmalloc(0),
an invalid dereference; the model then parses the heap bytes alone.)
Result: the returned ssize_t (-ENOMEM = -12, -EFAULT = -14,
-EINVAL = -22, or the input length) paired with the counter value
after the call. -/
def rotation_sensor_write (alloc_ok copy_ok : Bool) (buf heap : List Char)
    (v : Int) : Int × Int :=
  if alloc_ok = false then (-12, v)
  else if copy_ok = false then (-14, v)
  else
    match sscanf_ld (buf ++ heap) with
    | none => (-22, v)
    | some k => ((buf.length : Int), k)

/-- The successive values stored into sensor->value by the loop at
src/rotation-sensor.c:127-128, starting from value v: one store per
executed loop iteration. -/
def down_stores (m v : Int) : List Int :=
  if _h : 0 < m ∧ m < v then (v - m) :: down_stores m (v - m) else []
termination_by (v - m).toNat
decreasing_by
  simp_wf
  omega

/-- The successive values stored into sensor->value by the loop at
src/rotation-sensor.c:129-130, starting from value v. -/
def up_stores (m v : Int) : List Int :=
  if _h : 0 < m ∧ v < 0 then (v + m) :: up_stores m (v + m) else []
termination_by (-v).toNat
decreasing_by
  simp_wf
  omega

/-- The successive values stored into sensor->value during one
invocation of gpio_a_handler from counter value v: the ±1 step at
line 124 or 126, then one store per normalization loop iteration
(lines 127-130). -/
def handler_stores (m : Int) (b : Bool) (v : Int) : List Int :=
  (if b then v + 1 else v - 1) ::
    (down_stores m (if b then v + 1 else v - 1)
      ++ up_stores m (normalize_down m (if b then v + 1 else v - 1)))

/-- Atomic actions of the edge-handler context on the shared state:
spin_lock (line 122), a store to sensor->value, spin_unlock
(line 132). -/
inductive HAct where
  | acquire : HAct
  | store : Int → HAct
  | release : HAct
deriving DecidableEq, Repr

/-- The whole body of gpio_a_handler as a sequence of atomic actions:
it takes the spinlock, performs all its stores, and releases the
spinlock, i.e. all three algorithm steps sit in one critical
section (lines 122-132). -/
def handler_prog (m : Int) (b : Bool) (v : Int) : List HAct :=
  HAct.acquire :: ((handler_stores m b v).map HAct.store ++ [HAct.release])

/-- Interleaving state for one edge-handler invocation running
concurrently with one reader: the shared counter value, whether the
spinlock is held, the remaining handler actions, and the value the
reader has sampled (none until its load has executed). -/
structure Sys where
  value : Int
  locked : Bool
  prog : List HAct
  sampled : Option Int
deriving DecidableEq, Repr

/-- Interleaving semantics.  The handler context executes its actions
in order; acquire requires the lock to be free and the stores and the
release happen while it holds the lock.  The reader action models the
load of g_rotation_sensor.value in the expression at
src/rotation-sensor.c:71, which the source executes BEFORE
spin_lock_irqsave at line 72: the load therefore needs no lock and
may interleave at any point, including between two handler stores. -/
inductive SysStep : Sys → Sys → Prop where
  | acq (s : Sys) (r : List HAct) : s.prog = HAct.acquire :: r → s.locked = false →
      SysStep s ⟨s.value, true, r, s.sampled⟩
  | sto (s : Sys) (n : Int) (r : List HAct) : s.prog = HAct.store n :: r →
      SysStep s ⟨n, s.locked, r, s.sampled⟩
  | rel (s : Sys) (r : List HAct) : s.prog = HAct.release :: r →
      SysStep s ⟨s.value, false, r, s.sampled⟩
  | sample (s : Sys) : s.sampled = none →
      SysStep s ⟨s.value, s.locked, s.prog, some s.value⟩

/-- The four resources acquired by rotation_sensor_init, in
acquisition order: GPIO line A, GPIO line B, the IRQ handler, the
misc device endpoint. -/
inductive Res where
  | gpa : Res
  | gpb : Res
  | irqh : Res
  | miscdev : Res
deriving DecidableEq, Repr

/-- Oracle for the outcomes of the five acquisition calls made by
rotation_sensor_init: gpio_request on A and B, gpio_direction_input
on A and B, request_irq, misc_register.  0 means success. -/
structure InitOracle where
  req_a : Int
  req_b : Int
  dir_a : Int
  dir_b : Int
  irq : Int
  misc : Int
deriving DecidableEq, Repr

/-- src/rotation-sensor.c:157-196, rotation_sensor_init.  Result: the
returned error code, the list of resources still held when init
returns, and the list of resources freed on the failure path (in the
order the code frees them).  Mirrors the source exactly: at the
direction-configuration failure (lines 176-181) the code returns the
variable err, which at that point still holds the result of the
successful gpio_request(gpio_b), i.e. 0; at a misc_register failure
(lines 194-195) the code returns err without freeing anything. -/
def rotation_sensor_init (o : InitOracle) : Int × List Res × List Res :=
  let err := o.req_a
  if err ≠ 0 then (err, [], [])
  else
    let err := o.req_b
    if err ≠ 0 then (err, [], [Res.gpa])
    else
      if o.dir_a ≠ 0 ∨ o.dir_b ≠ 0 then (err, [], [Res.gpb, Res.gpa])
      else
        let err := o.irq
        if err ≠ 0 then (err, [], [Res.gpb, Res.gpa])
        else
          let err := o.misc
          (err,
           [Res.gpa, Res.gpb, Res.irqh] ++ (if err = 0 then [Res.miscdev] else []),
           [])

-- ------------------------------------------------------------------
-- Lemmas about the normalization loops
-- ------------------------------------------------------------------

theorem normalize_down_of_le (m v : Int) (h : v ≤ m) : normalize_down m v = v := by
  rw [normalize_down]
  split
  · exfalso
    omega
  · rfl

theorem normalize_down_le (m : Int) (hm : 0 < m) : ∀ v : Int, normalize_down m v ≤ m := by
  intro v
  induction v using normalize_down.induct m with
  | case1 x h ih =>
    rw [normalize_down, dif_pos h]
    exact ih
  | case2 x h =>
    rw [normalize_down, dif_neg h]
    omega

theorem normalize_down_nonneg (m : Int) (hm : 0 < m) :
    ∀ v : Int, 0 ≤ v → 0 ≤ normalize_down m v := by
  intro v
  induction v using normalize_down.induct m with
  | case1 x h ih =>
    intro _
    rw [normalize_down, dif_pos h]
    exact ih (by omega)
  | case2 x h =>
    intro hv
    rw [normalize_down, dif_neg h]
    exact hv

theorem normalize_down_emod (m : Int) : ∀ v : Int, normalize_down m v % m = v % m := by
  intro v
  induction v using normalize_down.induct m with
  | case1 x h ih =>
    rw [normalize_down, dif_pos h, ih]
    conv_rhs => rw [show x = x - m + m * 1 by ring]
    rw [Int.add_mul_emod_self_left]
  | case2 x h =>
    rw [normalize_down, dif_neg h]

theorem normalize_up_of_nonneg (m v : Int) (h : 0 ≤ v) : normalize_up m v = v := by
  rw [normalize_up]
  split
  · exfalso
    omega
  · rfl

theorem normalize_up_nonneg (m : Int) (hm : 0 < m) : ∀ v : Int, v < 0 → 0 ≤ normalize_up m v := by
  intro v
  induction v using normalize_up.induct m with
  | case1 x h ih =>
    intro _
    rw [normalize_up, dif_pos h]
    rcases lt_or_le (x + m) 0 with h2 | h2
    · exact ih h2
    · rw [normalize_up_of_nonneg m _ h2]
      exact h2
  | case2 x h =>
    intro hv
    omega

theorem normalize_up_le (m : Int) (hm : 0 < m) : ∀ v : Int, v ≤ m → normalize_up m v ≤ m := by
  intro v
  induction v using normalize_up.induct m with
  | case1 x h ih =>
    intro _
    rw [normalize_up, dif_pos h]
    exact ih (by omega)
  | case2 x h =>
    intro hv
    rw [normalize_up, dif_neg h]
    exact hv

theorem normalize_up_emod (m : Int) : ∀ v : Int, normalize_up m v % m = v % m := by
  intro v
  induction v using normalize_up.induct m with
  | case1 x h ih =>
    rw [normalize_up, dif_pos h, ih]
    conv_rhs => rw [show x = x + m + m * (-1) by ring]
    rw [Int.add_mul_emod_self_left]
  | case2 x h =>
    rw [normalize_up, dif_neg h]

-- ------------------------------------------------------------------
-- Lemmas about the edge handler
-- ------------------------------------------------------------------

theorem gpio_a_handler_bounds (m : Int) (hm : 0 < m) (b : Bool) (v : Int) :
    0 ≤ (gpio_a_handler m b v).1 ∧ (gpio_a_handler m b v).1 ≤ m := by
  show 0 ≤ normalize_up m (normalize_down m (if b then v + 1 else v - 1)) ∧
    normalize_up m (normalize_down m (if b then v + 1 else v - 1)) ≤ m
  have hd_le : normalize_down m (if b then v + 1 else v - 1) ≤ m :=
    normalize_down_le m hm _
  rcases le_or_lt 0 (normalize_down m (if b then v + 1 else v - 1)) with h0 | h0
  · rw [normalize_up_of_nonneg m _ h0]
    exact ⟨h0, hd_le⟩
  · exact ⟨normalize_up_nonneg m hm _ h0, normalize_up_le m hm _ hd_le⟩

theorem gpio_a_handler_emod (m : Int) (b : Bool) (v : Int) :
    (gpio_a_handler m b v).1 % m = (if b then v + 1 else v - 1) % m := by
  show normalize_up m (normalize_down m (if b then v + 1 else v - 1)) % m = _
  rw [normalize_up_emod, normalize_down_emod]

theorem gpio_a_handler_step_true (m v : Int) (h0 : 0 ≤ v) (h1 : v + 1 ≤ m) :
    (gpio_a_handler m true v).1 = v + 1 := by
  show normalize_up m (normalize_down m (if true = true then v + 1 else v - 1)) = v + 1
  rw [if_pos rfl, normalize_down_of_le m _ h1, normalize_up_of_nonneg m _ (by omega)]

-- ------------------------------------------------------------------
-- Lemmas about event sequences
-- ------------------------------------------------------------------

theorem run_events_nil (m v : Int) : run_events m [] v = v := rfl

theorem run_events_cons (m : Int) (b : Bool) (ls : List Bool) (v : Int) :
    run_events m (b :: ls) v = run_events m ls (gpio_a_handler m b v).1 := rfl

theorem signed_sum_nil : signed_sum [] = 0 := rfl

theorem signed_sum_cons (b : Bool) (ls : List Bool) :
    signed_sum (b :: ls) = (if b then (1 : Int) else -1) + signed_sum ls := by
  simp [signed_sum]

theorem run_events_bounds (m : Int) (hm : 0 < m) :
    ∀ (ls : List Bool) (v : Int), 0 ≤ v → v ≤ m →
      0 ≤ run_events m ls v ∧ run_events m ls v ≤ m := by
  intro ls
  induction ls with
  | nil =>
    intro v h0 h1
    exact ⟨h0, h1⟩
  | cons b ls ih =>
    intro v _ _
    rw [run_events_cons]
    have hb := gpio_a_handler_bounds m hm b v
    exact ih _ hb.1 hb.2

theorem run_events_emod (m : Int) :
    ∀ (ls : List Bool) (v : Int), run_events m ls v % m = (v + signed_sum ls) % m := by
  intro ls
  induction ls with
  | nil =>
    intro v
    rw [run_events_nil, signed_sum_nil, add_zero]
  | cons b ls ih =>
    intro v
    rw [run_events_cons, ih, signed_sum_cons]
    have hmod : (gpio_a_handler m b v).1 % m = (if b then v + 1 else v - 1) % m :=
      gpio_a_handler_emod m b v
    have h2 : ((gpio_a_handler m b v).1 + signed_sum ls) % m
        = ((if b then v + 1 else v - 1) + signed_sum ls) % m := by
      have := Int.ModEq.add_right (signed_sum ls) hmod
      exact this
    rw [h2]
    congr 1
    cases b <;> simp <;> ring

theorem run_events_replicate_true (m : Int) :
    ∀ (n : Nat) (v : Int), 0 ≤ v → v + n ≤ m →
      run_events m (List.replicate n true) v = v + n := by
  intro n
  induction n with
  | zero =>
    intro v _ _
    simp [run_events_nil]
  | succ k ih =>
    intro v h0 h1
    rw [List.replicate_succ, run_events_cons,
        gpio_a_handler_step_true m v h0 (by push_cast at h1 ⊢; omega)]
    have := ih (v + 1) (by omega) (by push_cast at h1 ⊢; omega)
    rw [this]
    push_cast
    ring

theorem signed_sum_replicate_true (n : Nat) :
    signed_sum (List.replicate n true) = (n : Int) := by
  simp [signed_sum, List.map_replicate, List.sum_replicate]

-- ------------------------------------------------------------------
-- Lemmas about decimal rendering and parsing
-- ------------------------------------------------------------------

theorem is_digit_digit_char (d : Nat) : is_digit (digit_char d) = true := by
  rcases Nat.lt_or_ge d 9 with h | h
  · interval_cases d <;> rfl
  · obtain ⟨e, rfl⟩ : ∃ e, d = e + 9 := ⟨d - 9, by omega⟩
    rfl

theorem digit_val_digit_char (d : Nat) (h : d < 10) : digit_val (digit_char d) = d := by
  interval_cases d <;> rfl

theorem nat_decimal_ne_nil (n : Nat) : nat_decimal n ≠ [] := by
  induction n using nat_decimal.induct with
  | case1 x h =>
    rw [nat_decimal, dif_pos h]
    simp
  | case2 x h ih =>
    rw [nat_decimal, dif_neg h]
    simp

theorem nat_decimal_all_digits (n : Nat) : ∀ c ∈ nat_decimal n, is_digit c = true := by
  induction n using nat_decimal.induct with
  | case1 x h =>
    rw [nat_decimal, dif_pos h]
    intro c hc
    rw [List.mem_singleton] at hc
    rw [hc]
    exact is_digit_digit_char x
  | case2 x h ih =>
    rw [nat_decimal, dif_neg h]
    intro c hc
    rcases List.mem_append.mp hc with h1 | h1
    · exact ih c h1
    · rw [List.mem_singleton] at h1
      rw [h1]
      exact is_digit_digit_char (x % 10)

theorem digits_val_append_single (l : List Char) (c : Char) :
    digits_val (l ++ [c]) = digits_val l * 10 + digit_val c := by
  simp [digits_val, List.foldl_append]

theorem digits_val_nat_decimal (n : Nat) : digits_val (nat_decimal n) = n := by
  induction n using nat_decimal.induct with
  | case1 x h =>
    rw [nat_decimal, dif_pos h]
    show 0 * 10 + digit_val (digit_char x) = x
    rw [digit_val_digit_char x h]
    omega
  | case2 x h ih =>
    rw [nat_decimal, dif_neg h, digits_val_append_single, ih,
        digit_val_digit_char (x % 10) (by omega)]
    omega

theorem takeWhile_all {p : Char → Bool} :
    ∀ l : List Char, (∀ c ∈ l, p c = true) → l.takeWhile p = l := by
  intro l
  induction l with
  | nil =>
    intro _
    rfl
  | cons c t ih =>
    intro h
    rw [List.takeWhile_cons, if_pos (h c (List.mem_cons_self c t))]
    rw [ih (fun x hx => h x (List.mem_cons_of_mem c hx))]

theorem not_space_of_digit (c : Char) (h : is_digit c = true) : is_space c = false := by
  simp only [is_digit, Bool.and_eq_true, decide_eq_true_eq] at h
  simp only [is_space, Bool.or_eq_false_iff, beq_eq_false_iff_ne, ne_eq]
  omega

theorem ne_minus_of_digit (c : Char) (h : is_digit c = true) : c ≠ '-' := by
  intro e
  rw [e] at h
  exact absurd h (by decide)

theorem ne_plus_of_digit (c : Char) (h : is_digit c = true) : c ≠ '+' := by
  intro e
  rw [e] at h
  exact absurd h (by decide)

theorem wrap32_eq_self (x : Int) (h1 : -2147483648 ≤ x) (h2 : x < 2147483648) :
    wrap32 x = x := by
  unfold wrap32
  omega

theorem wrap64_eq_self (x : Int) (h1 : -9223372036854775808 ≤ x)
    (h2 : x < 9223372036854775808) : wrap64 x = x := by
  unfold wrap64
  omega

theorem sscanf_ld_nat_decimal (n : Nat) (hn : n < 9223372036854775808) :
    sscanf_ld (nat_decimal n) = some (n : Int) := by
  obtain ⟨c, t, hct⟩ := List.exists_cons_of_ne_nil (nat_decimal_ne_nil n)
  have hall := nat_decimal_all_digits n
  have hc : is_digit c = true := by
    apply hall
    rw [hct]
    exact List.mem_cons_self c t
  have hdw : (nat_decimal n).dropWhile is_space = nat_decimal n := by
    rw [hct, List.dropWhile_cons]
    simp [not_space_of_digit c hc]
  have hps : parse_sign (nat_decimal n) = (false, nat_decimal n) := by
    rw [hct]
    unfold parse_sign
    simp [ne_minus_of_digit c hc, ne_plus_of_digit c hc]
  have htw : (nat_decimal n).takeWhile is_digit = nat_decimal n :=
    takeWhile_all _ hall
  unfold sscanf_ld
  simp only [hdw, hps, htw]
  simp [nat_decimal_ne_nil n, digits_val_nat_decimal n, wrap64]
  omega

theorem sscanf_ld_int_decimal (k : Int) (hk1 : -9223372036854775808 ≤ k)
    (hk2 : k < 9223372036854775808) : sscanf_ld (int_decimal k) = some k := by
  unfold int_decimal
  split
  · rename_i hk
    have hall := nat_decimal_all_digits (-k).toNat
    have hdw : ('-' :: nat_decimal (-k).toNat).dropWhile is_space
        = '-' :: nat_decimal (-k).toNat := by
      rw [List.dropWhile_cons]
      simp [show is_space '-' = false from rfl]
    have hps : parse_sign ('-' :: nat_decimal (-k).toNat)
        = (true, nat_decimal (-k).toNat) := by
      unfold parse_sign
      simp
    have htw : (nat_decimal (-k).toNat).takeWhile is_digit = nat_decimal (-k).toNat :=
      takeWhile_all _ hall
    unfold sscanf_ld
    simp only [hdw, hps, htw]
    simp [nat_decimal_ne_nil _, digits_val_nat_decimal, wrap64]
    omega
  · rename_i hk
    rw [sscanf_ld_nat_decimal _ (by omega)]
    rw [Int.toNat_of_nonneg (by omega)]

-- ------------------------------------------------------------------
-- Lemmas about the read path
-- ------------------------------------------------------------------

theorem kbuffer_of_length_pos (m v : Int) : 0 < (kbuffer_of m v).length := by
  simp [kbuffer_of]

theorem kbuffer_of_length_le (m v : Int) : (kbuffer_of m v).length ≤ 63 := by
  simp [kbuffer_of]

theorem rotation_sensor_read_spec (m v : Int) (c : Nat) (off : Nat)
    (hoff : off ≤ (kbuffer_of m v).length) :
    rotation_sensor_read m v c (off : Int) true =
      ⟨((min c ((kbuffer_of m v).length - off) : Nat) : Int),
       ((kbuffer_of m v).drop off).take (min c ((kbuffer_of m v).length - off)),
       ((off + min c ((kbuffer_of m v).length - off) : Nat) : Int)⟩ := by
  have hle := kbuffer_of_length_le m v
  simp only [rotation_sensor_read]
  rw [wrap32_eq_self (((kbuffer_of m v).length : Int) - (off : Nat))
        (by omega) (by omega)]
  by_cases hend : (kbuffer_of m v).length = off
  · rw [if_pos (by omega)]
    have h0 : min c ((kbuffer_of m v).length - off) = 0 := by omega
    rw [h0]
    simp
  · rw [if_neg (by omega)]
    simp only [if_true]
    have hlt : off < (kbuffer_of m v).length := by omega
    have htn : (((kbuffer_of m v).length : Int) - (off : Int)).toNat
        = (kbuffer_of m v).length - off := by omega
    rw [htn]
    have hmin : min ((kbuffer_of m v).length - off) c
        = min c ((kbuffer_of m v).length - off) := Nat.min_comm _ _
    rw [hmin]
    have hoffn : ((off : Int)).toNat = off := Int.toNat_natCast off
    rw [hoffn]
    refine congrArg₂ _ rfl ?_
    push_cast
    ring

theorem rotation_sensor_read_full (m v : Int) :
    rotation_sensor_read m v (kbuffer_of m v).length 0 true
      = ⟨((kbuffer_of m v).length : Int), kbuffer_of m v,
         ((kbuffer_of m v).length : Int)⟩ := by
  have h := rotation_sensor_read_spec m v (kbuffer_of m v).length 0 (by omega)
  simp only [Nat.sub_zero, Nat.min_self, List.drop_zero, List.take_length,
    Nat.cast_ofNat, Nat.zero_add] at h
  simpa using h

-- ------------------------------------------------------------------
-- Concrete evaluations shared by several claims
-- ------------------------------------------------------------------

theorem kbuffer_5000_0 : kbuffer_of 5000 0 = "0.0\n".toList := by
  simp [kbuffer_of, show angle_of 5000 0 = 0 from rfl,
        show Int.tdiv 0 10 = 0 from rfl, show Int.tmod 0 10 = 0 from rfl,
        int_decimal, nat_decimal, digit_char]

theorem kbuffer_5000_10 : kbuffer_of 5000 10 = "0.7\n".toList := by
  simp [kbuffer_of, show angle_of 5000 10 = 7 from rfl,
        show Int.tdiv 7 10 = 0 from rfl, show Int.tmod 7 10 = 7 from rfl,
        int_decimal, nat_decimal, digit_char]

theorem kbuffer_5000_2500 : kbuffer_of 5000 2500 = "180.0\n".toList := by
  simp [kbuffer_of, show angle_of 5000 2500 = 1800 from rfl,
        show Int.tdiv 1800 10 = 180 from rfl, show Int.tmod 1800 10 = 0 from rfl,
        int_decimal, nat_decimal, digit_char]

theorem kbuffer_5000_5000 : kbuffer_of 5000 5000 = "360.0\n".toList := by
  simp [kbuffer_of, show angle_of 5000 5000 = 3600 from rfl,
        show Int.tdiv 3600 10 = 360 from rfl, show Int.tmod 3600 10 = 0 from rfl,
        int_decimal, nat_decimal, digit_char]

theorem kbuffer_5000_25007 : kbuffer_of 5000 25007 = "1800.5\n".toList := by
  simp [kbuffer_of, show angle_of 5000 25007 = 18005 from rfl,
        show Int.tdiv 18005 10 = 1800 from rfl, show Int.tmod 18005 10 = 5 from rfl,
        int_decimal, nat_decimal, digit_char]

theorem int_decimal_2500 : int_decimal 2500 = "2500".toList := by
  simp [int_decimal, nat_decimal, digit_char]

theorem handler_prog_5000_false_0 :
    handler_prog 5000 false 0
      = [HAct.acquire, HAct.store (-1), HAct.store 4999, HAct.release] := by
  simp [handler_prog, handler_stores, down_stores, up_stores, normalize_down]

-- ------------------------------------------------------------------
-- Claim theorems
-- ------------------------------------------------------------------

/-- Claim C1, counterexample.  The claim states that after any event
sequence from counter 0 the value equals the signed sum modulo the
modulus and lies in the half-open interval.  The loop at
src/rotation-sensor.c:127 uses the strict guard value > count_max, so
5000 consecutive high events drive the counter from 0 to exactly
5000, which is not reduced: the result differs from the signed sum
modulo 5000 (which is 0) and does not lie below the modulus; the
wraparound instance claimed for value 4999 yields 5000, not 0. -/
theorem claim_c1_counterexample :
    run_events 5000 (List.replicate 5000 true) 0 = 5000
    ∧ run_events 5000 (List.replicate 5000 true) 0
        ≠ signed_sum (List.replicate 5000 true) % 5000
    ∧ ¬ run_events 5000 (List.replicate 5000 true) 0 < 5000
    ∧ (gpio_a_handler 5000 true 4999).1 = 5000 := by
  have h : run_events 5000 (List.replicate 5000 true) 0 = 5000 := by
    have := run_events_replicate_true 5000 5000 0 le_rfl (by norm_num)
    omega
  refine ⟨h, ?_, ?_, ?_⟩
  · rw [h, signed_sum_replicate_true]
    norm_num
  · rw [h]
    omega
  · have := gpio_a_handler_step_true 5000 4999 (by norm_num) (by norm_num)
    omega

/-- Claim C1, amended.  The normalization loops of gpio_a_handler use
the strict guards value > count_max and value < 0
(src/rotation-sensor.c:127-130), so for every event sequence starting
from counter 0 and any positive modulus the resulting counter value
is congruent to the signed sum (+1 per high channel-B level, -1 per
low level) modulo the modulus and lies in the CLOSED interval
[0, modulus]: the value modulus itself occurs, instead of 0, when an
increment lands exactly on the modulus.  With modulus 5000 and value
4999, one event with channel B high leaves the counter at 5000 and a
subsequent full read returns the string 360.0 followed by a newline,
not 0.0. -/
theorem claim_c1_amended (m : Int) (hm : 0 < m) (ls : List Bool) :
    run_events m ls 0 % m = signed_sum ls % m
    ∧ 0 ≤ run_events m ls 0 ∧ run_events m ls 0 ≤ m
    ∧ (gpio_a_handler 5000 true 4999).1 = 5000
    ∧ (rotation_sensor_read 5000 5000 6 0 true).bytes = "360.0\n".toList := by
  refine ⟨?_, (run_events_bounds m hm ls 0 le_rfl (le_of_lt hm)).1,
          (run_events_bounds m hm ls 0 le_rfl (le_of_lt hm)).2, ?_, ?_⟩
  · have := run_events_emod m ls 0
    simpa using this
  · have := gpio_a_handler_step_true 5000 4999 (by norm_num) (by norm_num)
    omega
  · have hfull := rotation_sensor_read_full 5000 5000
    rw [kbuffer_5000_5000] at hfull
    have h6 : ("360.0\n".toList : List Char).length = 6 := rfl
    rw [h6] at hfull
    rw [hfull]

/-- Claim C1, amended, witness at modulus 5000 and the one-event
sequence consisting of a single high level. -/
theorem claim_c1_amended_witness :
    run_events 5000 [true] 0 % 5000 = signed_sum [true] % 5000
    ∧ 0 ≤ run_events 5000 [true] 0 ∧ run_events 5000 [true] 0 ≤ 5000
    ∧ (gpio_a_handler 5000 true 4999).1 = 5000
    ∧ (rotation_sensor_read 5000 5000 6 0 true).bytes = "360.0\n".toList :=
  claim_c1_amended 5000 (by norm_num) [true]

/-- Claim C2: the startup sequence of rotation_sensor_init does NOT
satisfy the claimed rollback contract; this theorem evaluates the
embedded init code at the two failing oracles.  First: every
acquisition succeeds but misc_register fails with -ENOMEM; init
returns the error yet leaves GPIO line A, GPIO line B and the IRQ
handler held (no rollback, lines 194-195 of the source).  Second:
gpio_direction_input on line A fails with -EIO; init does free both
lines but returns the stale err variable, which still holds the 0 of
the preceding successful gpio_request, so startup reports success
(lines 176-181 of the source). -/
theorem claim_c2_code_eval :
    rotation_sensor_init ⟨0, 0, 0, 0, 0, -12⟩
      = (-12, [Res.gpa, Res.gpb, Res.irqh], [])
    ∧ rotation_sensor_init ⟨0, 0, -5, 0, 0, 0⟩
      = (0, [], [Res.gpb, Res.gpa]) := by
  constructor
  · rfl
  · rfl

/-- Claim C3: the claimed parse contract is not a property of the
program.  The source kmallocs exactly length bytes and never writes a
NUL terminator (src/rotation-sensor.c:98-105), so sscanf parses the
copied input followed by uninitialized heap bytes; this theorem
evaluates the embedded write at the failing inputs.  With input bytes
2500, an uninitialized heap byte 7 after the input makes the stored
value 25007 instead of the parsed integer 2500.  With the
single-space input, from which no leading signed decimal integer can
be parsed (its sscanf_ld is none, so the claim demands -EINVAL and an
unchanged counter), an uninitialized heap digit 5 makes the write
succeed, return the input length and overwrite the counter with 5. -/
theorem claim_c3_unterminated_parse :
    (rotation_sensor_write true true "2500".toList [] 10).2 = 2500
    ∧ (rotation_sensor_write true true "2500".toList ['7'] 10).2 = 25007
    ∧ sscanf_ld " ".toList = none
    ∧ rotation_sensor_write true true " ".toList ['5'] 10 = (1, 5)
    ∧ (rotation_sensor_write true true " ".toList ['5'] 10).1 ≠ -22 := by
  refine ⟨by decide, by decide, by decide, by decide, by decide⟩

/-- Claim C4: the write-then-read round trip is not a theorem of the
program.  First, the write half is heap-dependent: the decimal string
of every integer ends in a digit and the source never NUL-terminates
the kmalloc buffer, so an uninitialized digit byte after the input
extends the parsed number — writing the decimal string of 2500 with a
trailing heap byte 7 stores 25007, and the immediate full read
returns 1800.5 instead of the claimed (2500*3600/5000)/10 dot
(2500*3600/5000)%10 string 180.0.  Second, even with a benign heap
the claimed formula fails at representable integers: value * 3600 is
a 64-bit long multiplication that wraps for k beyond 2^63/3600, so at
k = 4*10^15 the code computes a negative angle while the claimed
truncating-division formula is positive. -/
theorem claim_c4_roundtrip_fails :
    (rotation_sensor_write true true (int_decimal 2500) ['7'] 0).2 = 25007
    ∧ (rotation_sensor_read 5000 25007 7 0 true).bytes = "1800.5\n".toList
    ∧ "1800.5\n".toList
        ≠ int_decimal (Int.tdiv (Int.tdiv (2500 * 3600) 5000) 10)
          ++ '.' :: int_decimal (Int.tmod (Int.tdiv (2500 * 3600) 5000) 10)
          ++ ['\n']
    ∧ angle_of 5000 4000000000000000 < 0
    ∧ 0 < Int.tdiv (Int.tdiv (4000000000000000 * 3600) 5000) 10 := by
  refine ⟨?_, ?_, ?_, by decide, by decide⟩
  · rw [int_decimal_2500]
    decide
  · have hfull := rotation_sensor_read_full 5000 25007
    rw [kbuffer_5000_25007] at hfull
    have h7 : ("1800.5\n".toList : List Char).length = 7 := rfl
    rw [h7] at hfull
    rw [hfull]
  · rw [show Int.tdiv (Int.tdiv (2500 * 3600) 5000) 10 = (180 : Int) from rfl,
        show Int.tmod (Int.tdiv (2500 * 3600) 5000) 10 = (0 : Int) from rfl,
        show int_decimal (180 : Int) = "180".toList by
          simp [int_decimal, nat_decimal, digit_char],
        show int_decimal (0 : Int) = "0".toList by
          simp [int_decimal, nat_decimal, digit_char]]
    decide

/-- Claim C5: a single read with capacity c at an offset not past the
end of the formatted string returns exactly min(c, remaining) bytes,
namely the bytes of the formatted string starting at the offset, and
advances the offset by that count; consequently reading the string in
two chunks of sizes a and len-a with no intervening event reproduces
the full string byte for byte. -/
theorem claim_c5_partial_reads (m v : Int) (c : Nat) (off : Nat)
    (hoff : off ≤ (kbuffer_of m v).length) :
    rotation_sensor_read m v c (off : Int) true
      = ⟨((min c ((kbuffer_of m v).length - off) : Nat) : Int),
         ((kbuffer_of m v).drop off).take (min c ((kbuffer_of m v).length - off)),
         ((off + min c ((kbuffer_of m v).length - off) : Nat) : Int)⟩
    ∧ ∀ a : Nat, a ≤ (kbuffer_of m v).length →
        (rotation_sensor_read m v a 0 true).bytes
          ++ (rotation_sensor_read m v ((kbuffer_of m v).length - a)
                (rotation_sensor_read m v a 0 true).offset true).bytes
          = kbuffer_of m v := by
  constructor
  · exact rotation_sensor_read_spec m v c off hoff
  · intro a ha
    have h1 := rotation_sensor_read_spec m v a 0 (Nat.zero_le _)
    simp only [Nat.cast_zero, Nat.sub_zero, List.drop_zero, Nat.zero_add] at h1
    rw [Nat.min_eq_left ha] at h1
    have h2 := rotation_sensor_read_spec m v ((kbuffer_of m v).length - a) a ha
    rw [Nat.min_self] at h2
    simp only [h1, h2]
    rw [show (kbuffer_of m v).length - a = ((kbuffer_of m v).drop a).length by
          rw [List.length_drop]]
    rw [List.take_length]
    exact List.take_append_drop a (kbuffer_of m v)

/-- Claim C5, witness at modulus 5000, counter 0, capacity 2,
offset 1, and split point 1. -/
theorem claim_c5_partial_reads_witness :
    (rotation_sensor_read 5000 0 1 0 true).bytes
      ++ (rotation_sensor_read 5000 0 ((kbuffer_of 5000 0).length - 1)
            (rotation_sensor_read 5000 0 1 0 true).offset true).bytes
      = kbuffer_of 5000 0 :=
  (claim_c5_partial_reads 5000 0 2 1
      (by rw [kbuffer_5000_0]; decide)).2 1 (by rw [kbuffer_5000_0]; decide)

/-- Claim C6: the scenario is heap-dependent, not a property of the
program.  Its event and read parts hold: ten high events leave the
counter at 10 and the full read returns 0.7; and when a zero byte
happens to follow the four copied input bytes (the empty heap tail),
writing 2500 stores 2500 and the next full read returns 180.0.  But
the source never NUL-terminates the kmalloc buffer, so with an
uninitialized digit byte 7 after the input the same write stores
25007 and the subsequent full read returns 1800.5, not the claimed
180.0. -/
theorem claim_c6_scenario_heap_dependent :
    run_events 5000 (List.replicate 10 true) 0 = 10
    ∧ (rotation_sensor_read 5000 10 4 0 true).bytes = "0.7\n".toList
    ∧ rotation_sensor_write true true "2500".toList [] 10 = (4, 2500)
    ∧ (rotation_sensor_read 5000 2500 6 0 true).bytes = "180.0\n".toList
    ∧ rotation_sensor_write true true "2500".toList ['7'] 10 = (4, 25007)
    ∧ (rotation_sensor_read 5000 25007 7 0 true).bytes = "1800.5\n".toList := by
  refine ⟨?_, ?_, by decide, ?_, by decide, ?_⟩
  · have := run_events_replicate_true 5000 10 0 le_rfl (by norm_num)
    simpa using this
  · have hfull := rotation_sensor_read_full 5000 10
    rw [kbuffer_5000_10] at hfull
    have h4 : ("0.7\n".toList : List Char).length = 4 := rfl
    rw [h4] at hfull
    rw [hfull]
  · have hfull := rotation_sensor_read_full 5000 2500
    rw [kbuffer_5000_2500] at hfull
    have h6 : ("180.0\n".toList : List Char).length = 6 := rfl
    rw [h6] at hfull
    rw [hfull]
  · have hfull := rotation_sensor_read_full 5000 25007
    rw [kbuffer_5000_25007] at hfull
    have h7 : ("1800.5\n".toList : List Char).length = 7 := rfl
    rw [h7] at hfull
    rw [hfull]

/-- Claim C7: end of stream holds only below 2^31, not for every
past-the-end offset.  The source computes lg -= *offset into a 32-bit
int (src/rotation-sensor.c:66, 78), so at the reachable offset
2^32 = 4294967296 (an lseek or pread position) with the 4-byte string
0.0, the difference 4 - 2^32 wraps back to the positive int 4:
instead of returning zero bytes with the offset unchanged, the code
returns 4, takes its copy source 2^32 bytes past the 64-byte kernel
buffer, and advances the offset to 4294967300.  At offsets below
2^31 the claimed behaviour holds, evaluated here at offset 9 with a
failing copy oracle (the copy is never attempted). -/
theorem claim_c7_offset_wrap :
    ((kbuffer_of 5000 0).length : Int) ≤ 4294967296
    ∧ (rotation_sensor_read 5000 0 64 4294967296 true).ret = 4
    ∧ (rotation_sensor_read 5000 0 64 4294967296 true).offset = 4294967300
    ∧ rotation_sensor_read 5000 0 64 9 false = ⟨0, [], 9⟩ := by
  have hk := kbuffer_5000_0
  simp only [rotation_sensor_read, hk]
  decide

/-- Claim C8: the three edge-handler steps do execute inside one
critical section, but the Position Reader does NOT sample the counter
under that exclusion: the load of g_rotation_sensor.value at
src/rotation-sensor.c:71 happens before spin_lock_irqsave at line 72.
This theorem evaluates the interleaving semantics at the failing
input (counter 0, modulus 5000, one low edge event concurrent with
one read): there is a reachable interleaving in which the reader
samples the intermediate pre-normalization value -1, outside
[0, 5000), while the handler still holds the lock mid-update. -/
theorem claim_c8_unlocked_sample :
    ∃ s : Sys,
      Relation.ReflTransGen SysStep ⟨0, false, handler_prog 5000 false 0, none⟩ s
      ∧ s.sampled = some (-1) ∧ s.locked = true ∧ s.prog ≠ []
      ∧ ¬ (0 ≤ (-1 : Int)) := by
  refine ⟨⟨-1, true, [HAct.store 4999, HAct.release], some (-1)⟩,
          ?_, rfl, rfl, by decide, by decide⟩
  have h1 : SysStep ⟨0, false, handler_prog 5000 false 0, none⟩
      ⟨0, true, [HAct.store (-1), HAct.store 4999, HAct.release], none⟩ :=
    SysStep.acq _ [HAct.store (-1), HAct.store 4999, HAct.release]
      handler_prog_5000_false_0 rfl
  have h2 : SysStep ⟨0, true, [HAct.store (-1), HAct.store 4999, HAct.release], none⟩
      ⟨-1, true, [HAct.store 4999, HAct.release], none⟩ :=
    SysStep.sto _ (-1) [HAct.store 4999, HAct.release] rfl
  have h3 : SysStep ⟨-1, true, [HAct.store 4999, HAct.release], none⟩
      ⟨-1, true, [HAct.store 4999, HAct.release], some (-1)⟩ :=
    SysStep.sample _ rfl
  exact Relation.ReflTransGen.head h1
    (Relation.ReflTransGen.head h2
      (Relation.ReflTransGen.head h3 Relation.ReflTransGen.refl))

/-- Claim C9: for every counter state, every sampled channel-B level
and any modulus, gpio_a_handler returns the event-handled indication;
its only effect is the returned counter value. -/
theorem claim_c9_handler_never_fails (m : Int) (b : Bool) (v : Int) :
    (gpio_a_handler m b v).2 = Irqreturn.IRQ_HANDLED := rfl

/-- Claim C10: for every starting counter value (including
out-of-range values left behind by an absolute write) and any
positive modulus, one gpio_a_handler invocation leaves the counter in
the closed interval [0, modulus]; the upper bound modulus itself is
reached (from modulus - 1 with channel B high) and is not reduced to
0; the closed interval is preserved by every further invocation since
the bound holds for every starting value. -/
theorem claim_c10_closed_interval (m : Int) (hm : 0 < m) :
    (∀ (v : Int) (b : Bool),
      0 ≤ (gpio_a_handler m b v).1 ∧ (gpio_a_handler m b v).1 ≤ m)
    ∧ (gpio_a_handler m true (m - 1)).1 = m := by
  constructor
  · intro v b
    exact gpio_a_handler_bounds m hm b v
  · rw [gpio_a_handler_step_true m (m - 1) (by omega) (by omega)]
    ring

/-- Claim C10, witness at modulus 5000: the bound at counter 7 and
the boundary value at counter 4999. -/
theorem claim_c10_closed_interval_witness :
    (0 ≤ (gpio_a_handler 5000 true 7).1 ∧ (gpio_a_handler 5000 true 7).1 ≤ 5000)
    ∧ (gpio_a_handler 5000 true 4999).1 = 5000 := by
  have h := claim_c10_closed_interval 5000 (by norm_num)
  refine ⟨h.1 7 true, ?_⟩
  have h2 := h.2
  rw [show (5000 : Int) - 1 = 4999 by norm_num] at h2
  exact h2

end RotationSensor
